import Mathlib

/-
Verification of the ingestion-and-retrieval pipeline of the Zero1 RAG
assistant (src/app.py).

The embedding below is a shallow model of the Python source:

* Python strings are modelled as `List Char` (a sequence of characters);
  identifiers (file ids, chunk ids, URLs) stay `String`.
* The Streamlit session state (`st.session_state['indexed_chunks']`, a set,
  and `st.session_state['chunk_texts']`, a dict) together with the Pinecone
  index are modelled by `PipelineState`.  A Python set is modelled as a list
  with membership-guarded insertion; a dict as an association list with
  update-or-append assignment, so lookups and assignments behave exactly like
  the Python ones on every state.
* External services are parameters: `embed` stands for `get_embedding`
  (OpenAI), `extract` for `extract_text_from_drive_file`, `fetchPage` for
  `requests.get(url).text` (which may raise, hence `Except`), `extractP` for
  the BeautifulSoup paragraph extraction, `knn` for the Pinecone
  `index.query` call (returning match ids in descending-similarity order),
  and `lm` for the chat-completion call.
* Fallible Python code (exceptions) is modelled with explicit abort flags /
  `Option` results: a function that raises returns no value (`none`), but
  mutations performed before the raise persist, exactly as they do in the
  Python process.
-/

/-- Metadata stored alongside a vector in the Pinecone index.
Drive chunks carry `{"name": name, "chunk_index": i//chunk_size, "source": "drive"}`;
web pages carry `{"name": title or url, "source": url}` (no chunk index). -/
structure VMeta where
  name : String
  chunk_index : Option Nat
  source : String
deriving DecidableEq

/-- A record of the Pinecone index: `(id, vector, metadata)`. -/
abbrev VRec (E : Type) := String × E × VMeta

/-- The process-local state of the pipeline: the session-state ledger
(`indexed_chunks` set and `chunk_texts` dict from src/app.py lines 49-52)
plus the Pinecone index contents.  `E` is the type of embedding vectors. -/
structure PipelineState (E : Type) where
  indexed_chunks : List String
  chunk_texts : List (String × List Char)
  vindex : List (VRec E)
deriving DecidableEq

/-- The empty session state: both ledger components empty, index empty. -/
def emptyPipelineState (E : Type) : PipelineState E := ⟨[], [], []⟩

/-- Python `set.add`: insert unless already a member (models
`st.session_state['indexed_chunks'].add(chunk_id)`). -/
def setAdd (s : List String) (x : String) : List String :=
  if x ∈ s then s else s ++ [x]

/-- Python `dict.get`: first binding of the key, if any. -/
def dictGet : List (String × List Char) → String → Option (List Char)
  | [], _ => none
  | (k', v) :: rest, k => if k' = k then some v else dictGet rest k

/-- Python `dict[k] = v`: replace the binding if the key is present,
otherwise append it. -/
def dictAssign : List (String × List Char) → String → List Char → List (String × List Char)
  | [], k, v => [(k, v)]
  | (k', v') :: rest, k, v =>
    if k' = k then (k, v) :: rest else (k', v') :: dictAssign rest k v

/-- Pinecone `index.upsert`: insert-or-replace by id. -/
def upsert {E : Type} (idx : List (VRec E)) (id : String) (v : E) (m : VMeta) :
    List (VRec E) :=
  if idx.any (fun r => r.1 = id) then
    idx.map (fun r => if r.1 = id then (id, v, m) else r)
  else idx ++ [(id, v, m)]

/-- Number of chunks produced for a text of length `len` with positive chunk
size `cs`: the length of Python `range(0, len, cs)`, i.e. ⌈len / cs⌉. -/
def numChunks (len cs : Nat) : Nat := (len + cs - 1) / cs

/-- Python `range(0, stop, step)` for `step > 0`: the starts
`0, step, 2*step, ...` below `stop`. -/
def pyRangeStep (stop step : Nat) : List Nat :=
  (List.range (numChunks stop step)).map (· * step)

/-- The chunking loop of `index_drive_docs` (src/app.py lines 105-107), for a
positive chunk size: for each start `i` of `range(0, len(text), chunk_size)`
produce the ordinal `i // chunk_size` and the slice `text[i:i+chunk_size]`. -/
def pyChunkEnum (text : List Char) (cs : Nat) : List (Nat × List Char) :=
  (pyRangeStep text.length cs).map fun i => (i / cs, (text.drop i).take cs)

/-- The chunk slices, in ordinal order. -/
def pyChunks (text : List Char) (cs : Nat) : List (List Char) :=
  (pyChunkEnum text cs).map (·.2)

/-- Outcome of running the chunking loop with an arbitrary integer chunk
size: Python `range` raises `ValueError` when the step is zero. -/
inductive ChunkOutcome where
  | err
  | chunks (cs : List (List Char))
deriving DecidableEq

/-- The chunking loop for an arbitrary integer `chunk_size`, following Python
`range(0, len(text), chunk_size)` semantics exactly: a zero step raises
`ValueError`; a negative step (with `stop = len(text) ≥ 0 = start`) yields an
empty range, hence zero chunks and no error. -/
def pyChunksTotal (text : List Char) (cs : Int) : ChunkOutcome :=
  if cs = 0 then ChunkOutcome.err
  else if cs < 0 then ChunkOutcome.chunks []
  else ChunkOutcome.chunks (pyChunks text cs.toNat)

/-- The chunk id `f"{file_id}_chunk_{n}"`. -/
def mkChunkId (fid : String) (n : Nat) : String :=
  fid ++ "_chunk_" ++ toString n

/-- A file as returned by the Drive listing: `files(id,name,mimeType)`. -/
structure DriveFile where
  id : String
  name : String
  mimeType : String
deriving DecidableEq

/-- Accumulator of the `index_drive_docs` loops: current state, the
`total_chunks` counter, and instrumentation counting `get_embedding` calls
and `index.upsert` calls. -/
structure DriveAcc (E : Type) where
  st : PipelineState E
  total : Nat
  ecalls : Nat
  upserts : Nat
deriving DecidableEq

/-- The body of the per-chunk loop of `index_drive_docs`
(src/app.py lines 105-114): skip if the chunk id is already in the ledger;
otherwise embed, upsert, record the text and the id, and count the chunk. -/
def driveChunkStep {E : Type} (embed : List Char → E) (f : DriveFile)
    (acc : DriveAcc E) (p : Nat × List Char) : DriveAcc E :=
  let cid := mkChunkId f.id p.1
  if cid ∈ acc.st.indexed_chunks then acc
  else
    let emb := embed p.2
    { st := { indexed_chunks := setAdd acc.st.indexed_chunks cid
            , chunk_texts := dictAssign acc.st.chunk_texts cid p.2
            , vindex := upsert acc.st.vindex cid emb ⟨f.name, some p.1, "drive"⟩ }
    , total := acc.total + 1
    , ecalls := acc.ecalls + 1
    , upserts := acc.upserts + 1 }

/-- The body of the per-file loop of `index_drive_docs`
(src/app.py lines 96-115): extract the text, skip the file if extraction is
empty, otherwise run the chunk loop. -/
def driveFileStep {E : Type} (embed : List Char → E) (extract : DriveFile → List Char)
    (cs : Nat) (acc : DriveAcc E) (f : DriveFile) : DriveAcc E :=
  let text := extract f
  if text = [] then acc
  else (pyChunkEnum text cs).foldl (driveChunkStep embed f) acc

/-- The result of one `index_drive_docs` call.  `ret` is the Python return
value: the function body has no `return` statement, so it is `none`. -/
structure DriveRun (E : Type) where
  state : PipelineState E
  total_chunks : Nat
  embed_calls : Nat
  upserts : Nat
  ret : Option Nat
deriving DecidableEq

/-- Models `index_drive_docs(chunk_size)` (src/app.py lines 76-121), over the files
returned by the Drive listing and the text extractor.  The function displays
`total_chunks` but returns `None`. -/
def indexDriveDocs {E : Type} (embed : List Char → E) (extract : DriveFile → List Char)
    (files : List DriveFile) (cs : Nat) (st0 : PipelineState E) : DriveRun E :=
  let a := files.foldl (driveFileStep embed extract cs) ⟨st0, 0, 0, 0⟩
  ⟨a.st, a.total, a.ecalls, a.upserts, none⟩

/-- The running invariant of a drive pass starting from a ledger with `n0`
entries: the `indexed_chunks` set lists exactly the keys of the
`chunk_texts` dict (in insertion order), the ledger has grown by exactly
`total` entries, and the embedding-call and upsert counters move in lockstep
with the chunk counter. -/
def DriveInv {E : Type} (n0 : Nat) (acc : DriveAcc E) : Prop :=
  acc.st.indexed_chunks = acc.st.chunk_texts.map Prod.fst
  ∧ acc.st.chunk_texts.length = n0 + acc.total
  ∧ acc.ecalls = acc.total ∧ acc.upserts = acc.total

/-- One organic search result: `res.get('title')`, `res.get('link')`. -/
structure WebResult where
  title : Option String
  link : Option String
deriving DecidableEq

/-- Accumulator of the `fetch_and_index_web` loop: current state, the `total`
counter, and whether the loop is still running (`ok = false` after an
uncaught fetch exception, which skips every remaining iteration because the
exception propagates out of the function). -/
structure WebAcc (E : Type) where
  st : PipelineState E
  total : Nat
  ok : Bool
deriving DecidableEq

/-- The body of the per-result loop of `fetch_and_index_web`
(src/app.py lines 131-144): skip results without a (truthy) link; fetch the
page — an exception here aborts the whole pass, there is no try/except —
extract paragraph text, skip if empty, otherwise embed and upsert keyed by
the URL and count the success. -/
def webStep {E : Type} (embed : List Char → E) (extractP : List Char → List Char)
    (fetchPage : String → Except Unit (List Char))
    (acc : WebAcc E) (res : WebResult) : WebAcc E :=
  if acc.ok = false then acc
  else
    match res.link with
    | none => acc
    | some url =>
      if url = "" then acc
      else
        match fetchPage url with
        | Except.error _ => ⟨acc.st, acc.total, false⟩
        | Except.ok html =>
          let text := extractP html
          if text = [] then acc
          else
            let emb := embed text
            ⟨{ acc.st with
                 vindex := upsert acc.st.vindex url emb ⟨res.title.getD url, none, url⟩ }
            , acc.total + 1, acc.ok⟩

/-- The result of one `fetch_and_index_web` call.  `ret` is the Python return
value: `some total` when the loop completes and `return total` runs, `none`
when a fetch exception aborted the call. -/
structure WebRun (E : Type) where
  state : PipelineState E
  total : Nat
  ok : Bool
  ret : Option Nat
deriving DecidableEq

/-- Models `fetch_and_index_web(query, top_k)` (src/app.py lines 124-146), over the
organic results of the search.  Python slices `organic_results[:top_k]`. -/
def fetchAndIndexWeb {E : Type} (embed : List Char → E) (extractP : List Char → List Char)
    (fetchPage : String → Except Unit (List Char))
    (results : List WebResult) (top_k : Nat) (st0 : PipelineState E) : WebRun E :=
  let a := (results.take top_k).foldl (webStep embed extractP fetchPage) ⟨st0, 0, true⟩
  ⟨a.st, a.total, a.ok, if a.ok then some a.total else none⟩

/-- Whether one search result contributes an upsert when every attempted
fetch succeeds: it has a truthy link, the fetch succeeds, and the extracted
paragraph text is nonempty. -/
def webHit (extractP : List Char → List Char)
    (fetchPage : String → Except Unit (List Char)) (r : WebResult) : Bool :=
  match r.link with
  | none => false
  | some url =>
    if url = "" then false
    else
      match fetchPage url with
      | Except.error _ => false
      | Except.ok html => !(extractP html).isEmpty

/-- Whether a fetch result is a success (no exception raised). -/
def fetchOk (r : Except Unit (List Char)) : Bool :=
  match r with
  | Except.ok _ => true
  | Except.error _ => false

/-- Whether processing one search result cannot raise: either it has no
truthy link (so no fetch is attempted) or its fetch succeeds. -/
def webFetchSafe (fetch : String → Except Unit (List Char)) (r : WebResult) : Bool :=
  match r.link with
  | none => true
  | some url => if url = "" then true else fetchOk (fetch url)

/-- The match-resolution loop of `get_relevant_docs`
(src/app.py lines 152-157): for each match id, look its text up in the
`chunk_texts` ledger with default `''`; append it only when nonempty
(Python truthiness) — ids absent from the ledger are silently dropped. -/
def resolveDocs {E : Type} (st : PipelineState E) (ms : List String) :
    List (List Char) :=
  ms.foldl
    (fun docs mid =>
      let t := (dictGet st.chunk_texts mid).getD []
      if t = [] then docs else docs ++ [t]) []

/-- Models `get_relevant_docs(query, top_k)` (src/app.py lines 149-157): embed the
query, run the Pinecone k-nearest-neighbour query (abstracted as `knn`,
which returns the match ids in the index's descending-similarity order), and
resolve each match against the ledger. -/
def getRelevantDocs {E : Type} (embed : List Char → E)
    (knn : List (VRec E) → E → Nat → List String)
    (q : List Char) (top_k : Nat) (st : PipelineState E) : List (List Char) :=
  resolveDocs st (knn st.vindex (embed q) top_k)

/-- The fixed no-information response of `chat_with_context`
(src/app.py line 166). -/
def noInfoMsg : List Char :=
  "I’m sorry, I don’t have any information on that topic in the indexed files.".toList

/-- The system prompt of `chat_with_context` (src/app.py lines 168-171). -/
def systemMsg : List Char :=
  ("You are a knowledgeable assistant. Answer the user’s question strictly using the provided context. "
   ++ "If the answer cannot be found in the context, respond that you don’t know.").toList

/-- The context separator `"\n\n---\n\n"` (src/app.py line 172). -/
def ctxSep : List Char := "\n\n---\n\n".toList

/-- The context assembly of `chat_with_context` (src/app.py lines 172-174):
every retrieved text is prefixed with `"[Drive] "` unconditionally, the
blocks are joined with the separator, and when web context was requested a
final `"[Web] "` block containing the literal web search prompt is
appended. -/
def buildContext (docs : List (List Char)) (include_web : Bool)
    (web_prompt : List Char) : List Char :=
  let base := List.intercalate ctxSep (docs.map (fun d => "[Drive] ".toList ++ d))
  if include_web ∧ web_prompt ≠ [] then
    base ++ ctxSep ++ "[Web] ".toList ++ web_prompt
  else base

/-- The optional web phase of `chat_with_context` (src/app.py lines 162-163):
`if include_web and web_prompt: fetch_and_index_web(web_prompt)` (with the
default `top_k = 3`).  When the phase does not run, the state is unchanged
and nothing can abort. -/
def chatWebPhase {E : Type} (embed : List Char → E) (extractP : List Char → List Char)
    (fetchPage : String → Except Unit (List Char)) (searchResults : List WebResult)
    (include_web : Bool) (web_prompt : List Char) (st0 : PipelineState E) : WebRun E :=
  if include_web ∧ web_prompt ≠ [] then
    fetchAndIndexWeb embed extractP fetchPage searchResults 3 st0
  else ⟨st0, 0, true, some 0⟩

/-- The result of one `chat_with_context` call: final state, the returned
string (`none` when an exception aborted the call), the number of
chat-completion (Language Model) calls made, and the user message passed to
the Language Model, when it was invoked. -/
structure ChatRun (E : Type) where
  state : PipelineState E
  ret : Option (List Char)
  lm_calls : Nat
  lm_user_msg : Option (List Char)

/-- Models `chat_with_context(query, include_web, web_prompt)`
(src/app.py lines 160-184): optional web indexing, retrieval with
`top_k = 5`, the fixed no-information early return on empty retrieval, and
otherwise one Language Model call on the assembled two-message prompt. -/
def chatWithContext {E : Type} (embed : List Char → E)
    (knn : List (VRec E) → E → Nat → List String)
    (lm : List Char → List Char → List Char)
    (extractP : List Char → List Char)
    (fetchPage : String → Except Unit (List Char)) (searchResults : List WebResult)
    (query : List Char) (include_web : Bool) (web_prompt : List Char)
    (st0 : PipelineState E) : ChatRun E :=
  let w := chatWebPhase embed extractP fetchPage searchResults include_web web_prompt st0
  if w.ok = false then ⟨w.state, none, 0, none⟩
  else
    let docs := getRelevantDocs embed knn query 5 w.state
    if docs = [] then ⟨w.state, some noInfoMsg, 0, none⟩
    else
      let context := buildContext docs include_web web_prompt
      let userMsg := "Question: ".toList ++ query ++ "\n\nContext:\n".toList ++ context
      ⟨w.state, some (lm systemMsg userMsg), 1, some userMsg⟩

/-- One user-initiated indexing action of the session: an
`index_drive_docs` button press (with its listing and extractor) or a
`fetch_and_index_web` call (with its search results and fetcher). -/
inductive PipeOp where
  | drive (extract : DriveFile → List Char) (files : List DriveFile) (cs : Nat)
  | web (extractP : List Char → List Char)
        (fetchPage : String → Except Unit (List Char))
        (results : List WebResult) (top_k : Nat)

/-- Apply one indexing action to the pipeline state. -/
def runOp {E : Type} (embed : List Char → E) : PipeOp → PipelineState E → PipelineState E
  | PipeOp.drive ex fs cs, st => (indexDriveDocs embed ex fs cs st).state
  | PipeOp.web exP fp rs k, st => (fetchAndIndexWeb embed exP fp rs k st).state

/-- Apply a sequence of indexing actions. -/
def runOps {E : Type} (embed : List Char → E) (ops : List PipeOp)
    (st : PipelineState E) : PipelineState E :=
  ops.foldl (fun s o => runOp embed o s) st

/-
Concrete fixtures used by witnesses and counterexamples.  The embedding type
is instantiated with `Nat` (the vector of a text is its length — the model
never inspects vectors, so any deterministic stand-in works).
-/

/-- A concrete embedder stand-in. -/
def cexEmbed : List Char → Nat := fun t => t.length

/-- A concrete extractor: every Drive file extracts to `"ab"`. -/
def cexExtract : DriveFile → List Char := fun _ => "ab".toList

/-- A single concrete Drive file. -/
def cexFiles : List DriveFile := [⟨"F1", "Strategy.pdf", "application/pdf"⟩]

/-- Three concrete organic search results with retrievable links. -/
def cexResults : List WebResult :=
  [⟨some "A", some "http://a"⟩, ⟨some "B", some "http://b"⟩, ⟨some "C", some "http://c"⟩]

/-- A fetcher for which exactly the second of the three result URLs fails
(raises). -/
def cexFetchOneFails : String → Except Unit (List Char) := fun u =>
  if u = "http://b" then Except.error () else Except.ok "hello world".toList

/-- A fetcher that always succeeds but returns a page with no paragraph text
for the second URL. -/
def cexFetchOneEmpty : String → Except Unit (List Char) := fun u =>
  if u = "http://b" then Except.ok [] else Except.ok "hello world".toList

/-- A session state holding one drive chunk in the ledger and, in the vector
index, both that drive chunk and one web-page record (whose text is not in
the ledger — web records never are). -/
def cexMixedState : PipelineState Nat :=
  ⟨["F1_chunk_0"], [("F1_chunk_0", "alpha".toList)],
   [("F1_chunk_0", 5, ⟨"Strategy.pdf", some 0, "drive"⟩),
    ("http://x", 11, ⟨"Some Page", none, "http://x"⟩)]⟩

/-- A Pinecone query stand-in returning, in descending-similarity order, the
drive chunk first and the web record second — matches of both origins. -/
def cexMixedKnn : List (VRec Nat) → Nat → Nat → List String :=
  fun _ _ _ => ["F1_chunk_0", "http://x"]

/-- A Pinecone query stand-in returning no matches. -/
def cexEmptyKnn : List (VRec Nat) → Nat → Nat → List String := fun _ _ _ => []

/-- A concrete Language Model stand-in. -/
def cexLm : List Char → List Char → List Char := fun _ _ => "model answer".toList

/-- Modelled from the spec (§4.3 step 3), for comparison with the code: the
spec's retrieval resolves every match, preferring the ledger text and
falling back to the metadata-derived description `"{source}: {name}"` when
the id is absent from the ledger. -/
def specResolveDocs {E : Type} (st : PipelineState E) (ms : List (String × VMeta)) :
    List (List Char) :=
  ms.map fun p =>
    match dictGet st.chunk_texts p.1 with
    | some t => t
    | none => (p.2.source ++ ": " ++ p.2.name).toList

/-- Modelled from the spec (§4.3, answer step 3), for comparison with the
code: the spec's context block tags each retrieved document's text with its
actual origin (`[Drive]` or `[Web]`) when both origins are mixed, joined
with the separator. -/
def specMixedContext (tagged : List (Bool × List Char)) : List Char :=
  List.intercalate ctxSep
    (tagged.map fun p =>
      (if p.1 then "[Drive] ".toList else "[Web] ".toList) ++ p.2)

/-
Helper lemmas.
-/

/-- Strong induction on the length of a character list. -/
theorem list_length_strong_ind {P : List Char → Prop}
    (step : ∀ l, (∀ l2 : List Char, l2.length < l.length → P l2) → P l) :
    ∀ l, P l := by
  intro l
  have H : ∀ n, ∀ l : List Char, l.length < n → P l := by
    intro n
    induction n with
    | zero => intro l h; omega
    | succ n ih => intro l h; exact step l (fun l2 h2 => ih l2 (by omega))
  exact H (l.length + 1) l (by omega)

/-- A text of length zero produces zero chunks. -/
theorem numChunks_zero (cs : Nat) : numChunks 0 cs = 0 := by
  unfold numChunks
  rcases Nat.eq_zero_or_pos cs with h | h
  · subst h; rfl
  · exact Nat.div_eq_of_lt (by omega)

/-- Peeling one chunk: for a nonempty text the chunk count is one more than
the chunk count of the text with its first `cs` characters removed. -/
theorem numChunks_peel {len cs : Nat} (hcs : 0 < cs) (hlen : 0 < len) :
    numChunks len cs = numChunks (len - cs) cs + 1 := by
  unfold numChunks
  rcases Nat.lt_or_ge cs len with h | h
  · have h1 : len + cs - 1 = (len - cs + cs - 1) + cs := by omega
    rw [h1, Nat.add_div_right _ hcs]
  · have h0 : len - cs = 0 := by omega
    rw [h0]
    have h1 : len + cs - 1 = (len - 1) + cs := by omega
    rw [h1, Nat.add_div_right _ hcs]
    rw [Nat.div_eq_of_lt (a := len - 1) (by omega),
        Nat.div_eq_of_lt (a := 0 + cs - 1) (by omega)]

/-- For a positive chunk size, the enumerated chunks are indexed by their
ordinals `0, 1, 2, ...` (since `(n * cs) / cs = n`). -/
theorem pyChunkEnum_eq (text : List Char) {cs : Nat} (hcs : 0 < cs) :
    pyChunkEnum text cs
      = (List.range (numChunks text.length cs)).map
          (fun n => (n, (text.drop (n * cs)).take cs)) := by
  unfold pyChunkEnum pyRangeStep
  rw [List.map_map]
  congr 1
  funext n
  simp only [Function.comp_apply, Nat.mul_div_cancel _ hcs]

/-- The empty text yields zero chunks. -/
theorem pyChunkEnum_nil (cs : Nat) : pyChunkEnum [] cs = [] := by
  unfold pyChunkEnum pyRangeStep
  simp [numChunks_zero]

/-- The empty text yields zero chunk slices. -/
theorem pyChunks_nil (cs : Nat) : pyChunks [] cs = [] := by
  unfold pyChunks
  rw [pyChunkEnum_nil]
  rfl

/-- Peeling one chunk slice off a nonempty text. -/
theorem pyChunks_peel (text : List Char) {cs : Nat} (hcs : 0 < cs) (h : text ≠ []) :
    pyChunks text cs = text.take cs :: pyChunks (text.drop cs) cs := by
  have hlen : 0 < text.length := List.length_pos.mpr h
  unfold pyChunks
  rw [pyChunkEnum_eq text hcs, pyChunkEnum_eq (text.drop cs) hcs,
      List.map_map, List.map_map, List.length_drop,
      numChunks_peel hcs hlen, List.range_succ_eq_map, List.map_cons, List.map_map]
  congr 1
  · simp
  · congr 1
    funext n
    have hmul : cs + n * cs = Nat.succ n * cs := by
      rw [Nat.succ_mul]; omega
    simp only [Function.comp_apply, List.drop_drop, hmul]

/-- For a positive chunk size, a text yields no chunk slices exactly when it
is empty. -/
theorem pyChunks_eq_nil (text : List Char) {cs : Nat} (hcs : 0 < cs) :
    pyChunks text cs = [] ↔ text = [] := by
  constructor
  · intro h
    by_contra hne
    rw [pyChunks_peel text hcs hne] at h
    exact List.cons_ne_nil _ _ h
  · intro h; subst h; exact pyChunks_nil cs

/-- Concatenating the chunk slices in ordinal order reconstructs the text. -/
theorem pyChunks_flatten {cs : Nat} (hcs : 0 < cs) :
    ∀ text : List Char, (pyChunks text cs).flatten = text := by
  apply list_length_strong_ind
  intro l ih
  by_cases h : l = []
  · subst h; rw [pyChunks_nil]; rfl
  · have hlen : 0 < l.length := List.length_pos.mpr h
    rw [pyChunks_peel l hcs h, List.flatten_cons,
        ih (l.drop cs) (by rw [List.length_drop]; omega),
        List.take_append_drop]

/-- Every chunk slice has length at most the chunk size. -/
theorem pyChunks_length_le (text : List Char) {cs : Nat} (hcs : 0 < cs) :
    ∀ s ∈ pyChunks text cs, s.length ≤ cs := by
  intro s hs
  rw [pyChunks, pyChunkEnum_eq text hcs, List.map_map] at hs
  simp only [List.mem_map, List.mem_range, Function.comp_apply] at hs
  obtain ⟨n, _, rfl⟩ := hs
  rw [List.length_take]
  exact min_le_left _ _

/-- Every chunk slice except possibly the final one has length exactly the
chunk size. -/
theorem pyChunks_dropLast_length {cs : Nat} (hcs : 0 < cs) :
    ∀ text : List Char, ∀ s ∈ (pyChunks text cs).dropLast, s.length = cs := by
  apply list_length_strong_ind
  intro l ih s hs
  by_cases h : l = []
  · rw [h, pyChunks_nil] at hs; simp at hs
  · have hlen : 0 < l.length := List.length_pos.mpr h
    rw [pyChunks_peel l hcs h] at hs
    by_cases h2 : pyChunks (l.drop cs) cs = []
    · rw [h2] at hs; simp at hs
    · rw [List.dropLast_cons_of_ne_nil h2, List.mem_cons] at hs
      rcases hs with hs | hs
      · have hd : l.drop cs ≠ [] := by
          intro hc; exact h2 (by rw [hc, pyChunks_nil])
        have : 0 < (l.drop cs).length := List.length_pos.mpr hd
        rw [List.length_drop] at this
        rw [hs, List.length_take]
        omega
      · exact ih (l.drop cs) (by rw [List.length_drop]; omega) s hs

/-- The chunk-id sequence is determined by the text's length alone. -/
theorem pyChunkEnum_ids (fid : String) (text : List Char) {cs : Nat} (hcs : 0 < cs) :
    ((pyChunkEnum text cs).map fun p => mkChunkId fid p.1)
      = (List.range (numChunks text.length cs)).map (mkChunkId fid) := by
  rw [pyChunkEnum_eq text hcs, List.map_map]
  rfl

/-- The chunk-slice lengths, as a function of the text length. -/
theorem pyChunkEnum_lengths (text : List Char) {cs : Nat} (hcs : 0 < cs) :
    (pyChunkEnum text cs).map (fun p => p.2.length)
      = (List.range (numChunks text.length cs)).map
          (fun n => min cs (text.length - n * cs)) := by
  rw [pyChunkEnum_eq text hcs, List.map_map]
  congr 1
  funext n
  simp [List.length_take, List.length_drop]

/-- Claim C1: for every string `text` and every chunk size `max_size > 0`,
the chunking step of `index_drive_docs` splits `text` into consecutive
slices whose concatenation in ordinal order reconstructs `text` exactly,
every slice has length at most `max_size`, and every slice except possibly
the final one has length exactly `max_size` (only the final slice may be
shorter). -/
theorem C1_chunk_reconstruction (text : List Char) (cs : Nat) (hcs : 0 < cs) :
    (pyChunks text cs).flatten = text
  ∧ (∀ s ∈ pyChunks text cs, s.length ≤ cs)
  ∧ (∀ s ∈ (pyChunks text cs).dropLast, s.length = cs) :=
  ⟨pyChunks_flatten hcs text, pyChunks_length_le text hcs,
   pyChunks_dropLast_length hcs text⟩

/-- Witness for C1: the claim instantiated at the text `"abcde"` and chunk
size 2. -/
theorem C1_witness :
    0 < 2
  ∧ ((pyChunks "abcde".toList 2).flatten = "abcde".toList
     ∧ (∀ s ∈ pyChunks "abcde".toList 2, s.length ≤ 2)
     ∧ (∀ s ∈ (pyChunks "abcde".toList 2).dropLast, s.length = 2)) :=
  ⟨by decide, C1_chunk_reconstruction "abcde".toList 2 (by decide)⟩

/-- Claim C7 counterexample: chunking the text `"abc"` with
`max_size = -1 ≤ 0` does not fail with any error: the Python loop
`for i in range(0, len(text), chunk_size)` iterates zero times because
`range(0, 3, -1)` is empty, so it silently yields zero chunks. -/
theorem C7_counterexample :
    pyChunksTotal "abc".toList (-1) ≠ ChunkOutcome.err
  ∧ pyChunksTotal "abc".toList (-1) = ChunkOutcome.chunks [] := by
  exact ⟨by decide, by decide⟩

/-- Claim C7 amended: chunking an empty text yields zero chunks, and
`max_size = 0` fails with an error (Python `ValueError` from `range`, the
code's realization of `InvalidConfiguration`); but a negative `max_size`
does not fail — it silently yields zero chunks. -/
theorem C7_amended (text : List Char) :
    pyChunksTotal text 0 = ChunkOutcome.err
  ∧ (∀ cs : Int, cs < 0 → pyChunksTotal text cs = ChunkOutcome.chunks [])
  ∧ (∀ cs : Int, 0 < cs → pyChunksTotal [] cs = ChunkOutcome.chunks []) := by
  refine ⟨rfl, ?_, ?_⟩
  · intro cs hneg
    unfold pyChunksTotal
    rw [if_neg (by omega), if_pos hneg]
  · intro cs hpos
    unfold pyChunksTotal
    rw [if_neg (by omega), if_neg (by omega), pyChunks_nil]

/-- Witness for C7 (amended): the amended claim instantiated at the text
`"xy"` with chunk sizes 0, -2 and 3. -/
theorem C7_witness :
    ((-2 : Int) < 0 ∧ (0 : Int) < 3)
  ∧ (pyChunksTotal "xy".toList 0 = ChunkOutcome.err
     ∧ pyChunksTotal "xy".toList (-2) = ChunkOutcome.chunks []
     ∧ pyChunksTotal [] 3 = ChunkOutcome.chunks []) :=
  ⟨by decide,
   (C7_amended "xy".toList).1,
   (C7_amended "xy".toList).2.1 (-2) (by decide),
   (C7_amended "xy".toList).2.2 3 (by decide)⟩

/-- Claim C9: chunk ids are deterministic — they are a function of the text
length alone, so two runs on the same text agree — and a document with
`source_id = "F1"` and 7000 characters of extracted text chunked with
`max_size = 3000` produces exactly the ids `F1_chunk_0`, `F1_chunk_1`,
`F1_chunk_2`, whose slices have lengths 3000, 3000, 1000. -/
theorem C9_chunk_ids (text : List Char) (h : text.length = 7000) :
    ((pyChunkEnum text 3000).map fun p => mkChunkId "F1" p.1)
      = ["F1_chunk_0", "F1_chunk_1", "F1_chunk_2"]
  ∧ (pyChunkEnum text 3000).map (fun p => p.2.length) = [3000, 3000, 1000]
  ∧ (∀ t2 : List Char, t2.length = 7000 →
       ((pyChunkEnum t2 3000).map fun p => mkChunkId "F1" p.1)
         = (pyChunkEnum text 3000).map fun p => mkChunkId "F1" p.1) := by
  have hids : ∀ t : List Char, t.length = 7000 →
      ((pyChunkEnum t 3000).map fun p => mkChunkId "F1" p.1)
        = ["F1_chunk_0", "F1_chunk_1", "F1_chunk_2"] := by
    intro t ht
    rw [pyChunkEnum_ids "F1" t (by omega), ht]
    decide
  refine ⟨hids text h, ?_, ?_⟩
  · rw [pyChunkEnum_lengths text (by omega), h]
    decide
  · intro t2 h2
    rw [hids t2 h2, hids text h]

/-- Witness for C9: the claim instantiated at a concrete text of 7000
characters. -/
theorem C9_witness :
    (List.replicate 7000 'a').length = 7000
  ∧ (((pyChunkEnum (List.replicate 7000 'a') 3000).map fun p => mkChunkId "F1" p.1)
       = ["F1_chunk_0", "F1_chunk_1", "F1_chunk_2"]
     ∧ (pyChunkEnum (List.replicate 7000 'a') 3000).map (fun p => p.2.length)
         = [3000, 3000, 1000]
     ∧ (∀ t2 : List Char, t2.length = 7000 →
          ((pyChunkEnum t2 3000).map fun p => mkChunkId "F1" p.1)
            = (pyChunkEnum (List.replicate 7000 'a') 3000).map fun p => mkChunkId "F1" p.1)) :=
  ⟨by rw [List.length_replicate],
   C9_chunk_ids (List.replicate 7000 'a') (by rw [List.length_replicate])⟩

/-- Generic fold invariant: a property preserved by each step is preserved
by the whole fold. -/
theorem foldl_inv {α β : Type} (P : α → Prop) (step : α → β → α)
    (hstep : ∀ a b, P a → P (step a b)) :
    ∀ (l : List β) (a : α), P a → P (l.foldl step a) := by
  intro l
  induction l with
  | nil => intro a h; exact h
  | cons b t ih => intro a h; exact ih (step a b) (hstep a b h)

/-- The per-chunk step either skips (ledger hit) or performs exactly one
embedding, one upsert and one ledger insertion (ledger miss). -/
theorem driveChunkStep_cases {E : Type} (embed : List Char → E) (f : DriveFile)
    (acc : DriveAcc E) (p : Nat × List Char) :
    (mkChunkId f.id p.1 ∈ acc.st.indexed_chunks ∧ driveChunkStep embed f acc p = acc)
  ∨ (mkChunkId f.id p.1 ∉ acc.st.indexed_chunks ∧
     driveChunkStep embed f acc p =
       { st := { indexed_chunks := acc.st.indexed_chunks ++ [mkChunkId f.id p.1]
               , chunk_texts := dictAssign acc.st.chunk_texts (mkChunkId f.id p.1) p.2
               , vindex := upsert acc.st.vindex (mkChunkId f.id p.1) (embed p.2)
                             ⟨f.name, some p.1, "drive"⟩ }
       , total := acc.total + 1
       , ecalls := acc.ecalls + 1
       , upserts := acc.upserts + 1 }) := by
  by_cases h : mkChunkId f.id p.1 ∈ acc.st.indexed_chunks
  · exact Or.inl ⟨h, by simp only [driveChunkStep, if_pos h]⟩
  · refine Or.inr ⟨h, ?_⟩
    simp only [driveChunkStep, setAdd, if_neg h]

/-- Ledger membership is preserved by the per-chunk step. -/
theorem driveChunkStep_mem {E : Type} (embed : List Char → E) (f : DriveFile)
    (acc : DriveAcc E) (p : Nat × List Char) (x : String)
    (hx : x ∈ acc.st.indexed_chunks) :
    x ∈ (driveChunkStep embed f acc p).st.indexed_chunks := by
  rcases driveChunkStep_cases embed f acc p with ⟨_, heq⟩ | ⟨_, heq⟩
  · rw [heq]; exact hx
  · rw [heq]; exact List.mem_append_left _ hx

/-- After the chunk loop, every chunk id of the processed list is in the
ledger. -/
theorem drive_fold_covers {E : Type} (embed : List Char → E) (f : DriveFile) :
    ∀ (l : List (Nat × List Char)) (acc : DriveAcc E) (p : Nat × List Char), p ∈ l →
      mkChunkId f.id p.1 ∈ (l.foldl (driveChunkStep embed f) acc).st.indexed_chunks := by
  intro l
  induction l with
  | nil => intro acc p hp; simp at hp
  | cons q t ih =>
    intro acc p hp
    rw [List.foldl_cons]
    rcases List.mem_cons.mp hp with h | h
    · subst h
      refine foldl_inv (fun a : DriveAcc E => mkChunkId f.id p.1 ∈ a.st.indexed_chunks)
        (driveChunkStep embed f) (fun a b hm => driveChunkStep_mem embed f a b _ hm) t _ ?_
      rcases driveChunkStep_cases embed f acc p with ⟨hin, heq⟩ | ⟨_, heq⟩
      · rw [heq]; exact hin
      · rw [heq]
        exact List.mem_append_right _ (List.mem_singleton_self _)
    · exact ih _ p h

/-- A chunk loop in which every chunk id is already in the ledger changes
nothing: no embedding, no upsert, no counter increment. -/
theorem drive_fold_noop {E : Type} (embed : List Char → E) (f : DriveFile) :
    ∀ (l : List (Nat × List Char)) (acc : DriveAcc E),
      (∀ p ∈ l, mkChunkId f.id p.1 ∈ acc.st.indexed_chunks) →
      l.foldl (driveChunkStep embed f) acc = acc := by
  intro l
  induction l with
  | nil => intro acc _; rfl
  | cons q t ih =>
    intro acc h
    rw [List.foldl_cons]
    have heq : driveChunkStep embed f acc q = acc := by
      simp only [driveChunkStep, if_pos (h q (List.mem_cons_self q t))]
    rw [heq]
    exact ih acc (fun p hp => h p (List.mem_cons_of_mem _ hp))

/-- Ledger membership is preserved by the per-file step. -/
theorem driveFileStep_mem {E : Type} (embed : List Char → E)
    (extract : DriveFile → List Char) (cs : Nat) (acc : DriveAcc E) (f : DriveFile)
    (x : String) (hx : x ∈ acc.st.indexed_chunks) :
    x ∈ (driveFileStep embed extract cs acc f).st.indexed_chunks := by
  simp only [driveFileStep]
  split
  · exact hx
  · exact foldl_inv (fun a : DriveAcc E => x ∈ a.st.indexed_chunks)
      (driveChunkStep embed f) (fun a b hm => driveChunkStep_mem embed f a b _ hm) _ _ hx

/-- After the per-file step, every chunk id of the file is in the ledger. -/
theorem driveFileStep_covers {E : Type} (embed : List Char → E)
    (extract : DriveFile → List Char) (cs : Nat) (acc : DriveAcc E) (f : DriveFile) :
    ∀ p ∈ pyChunkEnum (extract f) cs,
      mkChunkId f.id p.1 ∈ (driveFileStep embed extract cs acc f).st.indexed_chunks := by
  intro p hp
  simp only [driveFileStep]
  split
  · next h => rw [h, pyChunkEnum_nil] at hp; simp at hp
  · exact drive_fold_covers embed f _ acc p hp

/-- After a full `index_drive_docs` pass, every chunk id of every listed
file is in the ledger. -/
theorem drive_files_covers {E : Type} (embed : List Char → E)
    (extract : DriveFile → List Char) (cs : Nat) :
    ∀ (files : List DriveFile) (acc : DriveAcc E) (f : DriveFile), f ∈ files →
      ∀ p ∈ pyChunkEnum (extract f) cs,
        mkChunkId f.id p.1
          ∈ (files.foldl (driveFileStep embed extract cs) acc).st.indexed_chunks := by
  intro files
  induction files with
  | nil => intro acc f hf; simp at hf
  | cons g t ih =>
    intro acc f hf p hp
    rw [List.foldl_cons]
    rcases List.mem_cons.mp hf with h | h
    · subst h
      exact foldl_inv (fun a : DriveAcc E => mkChunkId f.id p.1 ∈ a.st.indexed_chunks)
        (driveFileStep embed extract cs)
        (fun a b hm => driveFileStep_mem embed extract cs a b _ hm) t _
        (driveFileStep_covers embed extract cs acc f p hp)
    · exact ih _ f h p hp

/-- A full pass in which every chunk id of every listed file is already in
the ledger changes nothing at all. -/
theorem drive_files_noop {E : Type} (embed : List Char → E)
    (extract : DriveFile → List Char) (cs : Nat) :
    ∀ (files : List DriveFile) (acc : DriveAcc E),
      (∀ f ∈ files, ∀ p ∈ pyChunkEnum (extract f) cs,
        mkChunkId f.id p.1 ∈ acc.st.indexed_chunks) →
      files.foldl (driveFileStep embed extract cs) acc = acc := by
  intro files
  induction files with
  | nil => intro acc _; rfl
  | cons g t ih =>
    intro acc h
    rw [List.foldl_cons]
    have heq : driveFileStep embed extract cs acc g = acc := by
      simp only [driveFileStep]
      split
      · rfl
      · exact drive_fold_noop embed g _ acc (h g (List.mem_cons_self g t))
    rw [heq]
    exact ih acc (fun f hf p hp => h f (List.mem_cons_of_mem _ hf) p hp)

/-- Claim C2: calling `index_drive_docs` twice in the same session with
unchanged source content (same listing, same extracted texts) performs zero
embedding computations on the second call — every chunk id is found in the
ledger — counts zero new chunks, and leaves the whole state, in particular
the Vector Index, unchanged. -/
theorem C2_reindex_idempotent {E : Type} (embed : List Char → E)
    (extract : DriveFile → List Char) (files : List DriveFile) (cs : Nat)
    (st0 : PipelineState E) (hcs : 0 < cs) :
    (indexDriveDocs embed extract files cs
        (indexDriveDocs embed extract files cs st0).state).embed_calls = 0
  ∧ (indexDriveDocs embed extract files cs
        (indexDriveDocs embed extract files cs st0).state).total_chunks = 0
  ∧ (indexDriveDocs embed extract files cs
        (indexDriveDocs embed extract files cs st0).state).state
      = (indexDriveDocs embed extract files cs st0).state := by
  have hcov : ∀ f ∈ files, ∀ p ∈ pyChunkEnum (extract f) cs,
      mkChunkId f.id p.1 ∈ (indexDriveDocs embed extract files cs st0).state.indexed_chunks :=
    fun f hf p hp => drive_files_covers embed extract cs files ⟨st0, 0, 0, 0⟩ f hf p hp
  have hno : files.foldl (driveFileStep embed extract cs)
      ⟨(files.foldl (driveFileStep embed extract cs)
          (⟨st0, 0, 0, 0⟩ : DriveAcc E)).st, 0, 0, 0⟩
      = ⟨(files.foldl (driveFileStep embed extract cs)
          (⟨st0, 0, 0, 0⟩ : DriveAcc E)).st, 0, 0, 0⟩ :=
    drive_files_noop embed extract cs files _ (fun f hf p hp => hcov f hf p hp)
  refine ⟨?_, ?_, ?_⟩ <;> simp only [indexDriveDocs] <;> rw [hno]

/-- Witness for C2: the claim instantiated at one concrete file and chunk
size 1, starting from the empty session. -/
theorem C2_witness :
    0 < 1
  ∧ ((indexDriveDocs cexEmbed cexExtract cexFiles 1
        (indexDriveDocs cexEmbed cexExtract cexFiles 1
          (emptyPipelineState Nat)).state).embed_calls = 0
     ∧ (indexDriveDocs cexEmbed cexExtract cexFiles 1
          (indexDriveDocs cexEmbed cexExtract cexFiles 1
            (emptyPipelineState Nat)).state).total_chunks = 0
     ∧ (indexDriveDocs cexEmbed cexExtract cexFiles 1
          (indexDriveDocs cexEmbed cexExtract cexFiles 1
            (emptyPipelineState Nat)).state).state
         = (indexDriveDocs cexEmbed cexExtract cexFiles 1
             (emptyPipelineState Nat)).state) :=
  ⟨by decide,
   C2_reindex_idempotent cexEmbed cexExtract cexFiles 1 (emptyPipelineState Nat)
     (by decide)⟩

/-- Assigning a key that is not yet bound appends the binding. -/
theorem dictAssign_append (d : List (String × List Char)) (k : String) (v : List Char)
    (h : k ∉ d.map Prod.fst) : dictAssign d k v = d ++ [(k, v)] := by
  induction d with
  | nil => rfl
  | cons p t ih =>
    simp only [List.map_cons, List.mem_cons, not_or] at h
    obtain ⟨h1, h2⟩ := h
    obtain ⟨k', v'⟩ := p
    simp only [dictAssign]
    rw [if_neg (fun hc => h1 hc.symm), ih h2, List.cons_append]

/-- The drive-pass invariant is preserved by the per-chunk step. -/
theorem driveChunkStep_inv {E : Type} (embed : List Char → E) (f : DriveFile)
    (n0 : Nat) (acc : DriveAcc E) (p : Nat × List Char) (h : DriveInv n0 acc) :
    DriveInv n0 (driveChunkStep embed f acc p) := by
  obtain ⟨h1, h2, h3, h4⟩ := h
  rcases driveChunkStep_cases embed f acc p with ⟨_, heq⟩ | ⟨hout, heq⟩
  · rw [heq]; exact ⟨h1, h2, h3, h4⟩
  · rw [heq]
    have hk : mkChunkId f.id p.1 ∉ acc.st.chunk_texts.map Prod.fst := h1 ▸ hout
    refine ⟨?_, ?_, show acc.ecalls + 1 = acc.total + 1 by omega,
      show acc.upserts + 1 = acc.total + 1 by omega⟩
    · simp only [dictAssign_append _ _ _ hk, List.map_append, List.map_cons,
        List.map_nil, h1]
    · simp only [dictAssign_append _ _ _ hk, List.length_append, List.length_cons,
        List.length_nil]
      omega

/-- The drive-pass invariant is preserved by the per-file step. -/
theorem driveFileStep_inv {E : Type} (embed : List Char → E)
    (extract : DriveFile → List Char) (cs : Nat) (n0 : Nat)
    (acc : DriveAcc E) (f : DriveFile) (h : DriveInv n0 acc) :
    DriveInv n0 (driveFileStep embed extract cs acc f) := by
  simp only [driveFileStep]
  split
  · exact h
  · exact foldl_inv (DriveInv n0) (driveChunkStep embed f)
      (fun a b hm => driveChunkStep_inv embed f n0 a b hm) _ _ h

/-- Ledger bookkeeping of one `index_drive_docs` call: provided the session
invariant (ids set = dict keys) holds at entry, the call keeps it, grows the
dict by exactly `total_chunks` entries, makes exactly one embedding call and
one upsert per counted chunk — and returns `None`. -/
theorem indexDriveDocs_ledger {E : Type} (embed : List Char → E)
    (extract : DriveFile → List Char) (files : List DriveFile) (cs : Nat)
    (st0 : PipelineState E)
    (hinv : st0.indexed_chunks = st0.chunk_texts.map Prod.fst) :
    (indexDriveDocs embed extract files cs st0).state.indexed_chunks
      = (indexDriveDocs embed extract files cs st0).state.chunk_texts.map Prod.fst
  ∧ (indexDriveDocs embed extract files cs st0).state.chunk_texts.length
      = st0.chunk_texts.length + (indexDriveDocs embed extract files cs st0).total_chunks
  ∧ (indexDriveDocs embed extract files cs st0).embed_calls
      = (indexDriveDocs embed extract files cs st0).total_chunks
  ∧ (indexDriveDocs embed extract files cs st0).upserts
      = (indexDriveDocs embed extract files cs st0).total_chunks
  ∧ (indexDriveDocs embed extract files cs st0).ret = none := by
  have h0 : DriveInv (E := E) st0.chunk_texts.length ⟨st0, 0, 0, 0⟩ :=
    ⟨hinv, by simp [DriveInv], rfl, rfl⟩
  have h := foldl_inv (DriveInv (E := E) st0.chunk_texts.length)
    (driveFileStep embed extract cs)
    (fun a b hm => driveFileStep_inv embed extract cs _ a b hm) files _ h0
  obtain ⟨h1, h2, h3, h4⟩ := h
  exact ⟨h1, h2, h3, h4, rfl⟩

/-- Claim C5 counterexample: `index_drive_docs` does not return the count of
new upserts — its body has no `return` statement, so a call that performs
two new upserts (chunk size 1 on a two-character extraction) returns `None`,
not `2`. -/
theorem C5_counterexample :
    (indexDriveDocs cexEmbed cexExtract cexFiles 1 (emptyPipelineState Nat)).total_chunks = 2
  ∧ (indexDriveDocs cexEmbed cexExtract cexFiles 1 (emptyPipelineState Nat)).upserts = 2
  ∧ (indexDriveDocs cexEmbed cexExtract cexFiles 1 (emptyPipelineState Nat)).ret = none
  ∧ (indexDriveDocs cexEmbed cexExtract cexFiles 1 (emptyPipelineState Nat)).ret
      ≠ some (indexDriveDocs cexEmbed cexExtract cexFiles 1
                (emptyPipelineState Nat)).total_chunks := by
  refine ⟨by decide, by decide, by decide, by decide⟩

/-- Claim C5 amended: for every filter (listing), `index_drive_docs`
computes and displays the total count of new upserts performed in the call —
the displayed `total_chunks` equals the number of upserts and of embedding
calls, each adding exactly one ledger entry — but the Python function
returns `None`, not that count (only `fetch_and_index_web` returns its
count). -/
theorem C5_display_count {E : Type} (embed : List Char → E)
    (extract : DriveFile → List Char) (files : List DriveFile) (cs : Nat)
    (st0 : PipelineState E)
    (hinv : st0.indexed_chunks = st0.chunk_texts.map Prod.fst) :
    (indexDriveDocs embed extract files cs st0).upserts
      = (indexDriveDocs embed extract files cs st0).total_chunks
  ∧ (indexDriveDocs embed extract files cs st0).embed_calls
      = (indexDriveDocs embed extract files cs st0).total_chunks
  ∧ (indexDriveDocs embed extract files cs st0).state.chunk_texts.length
      = st0.chunk_texts.length + (indexDriveDocs embed extract files cs st0).total_chunks
  ∧ (indexDriveDocs embed extract files cs st0).ret = none := by
  obtain ⟨_, h2, h3, h4, h5⟩ := indexDriveDocs_ledger embed extract files cs st0 hinv
  exact ⟨h4, h3, h2, h5⟩

/-- Witness for C5 (amended): the amended claim instantiated at one concrete
file from the empty session. -/
theorem C5_witness :
    (emptyPipelineState Nat).indexed_chunks
      = (emptyPipelineState Nat).chunk_texts.map Prod.fst
  ∧ ((indexDriveDocs cexEmbed cexExtract cexFiles 1 (emptyPipelineState Nat)).upserts
       = (indexDriveDocs cexEmbed cexExtract cexFiles 1 (emptyPipelineState Nat)).total_chunks
     ∧ (indexDriveDocs cexEmbed cexExtract cexFiles 1 (emptyPipelineState Nat)).embed_calls
       = (indexDriveDocs cexEmbed cexExtract cexFiles 1 (emptyPipelineState Nat)).total_chunks
     ∧ (indexDriveDocs cexEmbed cexExtract cexFiles 1
          (emptyPipelineState Nat)).state.chunk_texts.length
       = (emptyPipelineState Nat).chunk_texts.length
         + (indexDriveDocs cexEmbed cexExtract cexFiles 1 (emptyPipelineState Nat)).total_chunks
     ∧ (indexDriveDocs cexEmbed cexExtract cexFiles 1 (emptyPipelineState Nat)).ret = none) :=
  ⟨rfl, C5_display_count cexEmbed cexExtract cexFiles 1 (emptyPipelineState Nat) rfl⟩

/-- If every attempted fetch in the processed list succeeds, the web loop
never aborts and its counter counts exactly the results with a truthy link,
a successful fetch and nonempty extracted text. -/
theorem web_fold_count {E : Type} (embed : List Char → E)
    (extractP : List Char → List Char) (fetch : String → Except Unit (List Char)) :
    ∀ (l : List WebResult) (st : PipelineState E) (t : Nat),
      l.all (webFetchSafe fetch) = true →
      (l.foldl (webStep embed extractP fetch) ⟨st, t, true⟩).ok = true
      ∧ (l.foldl (webStep embed extractP fetch) ⟨st, t, true⟩).total
          = t + l.countP (webHit extractP fetch) := by
  intro l
  induction l with
  | nil => intro st t _; exact ⟨rfl, by simp⟩
  | cons r rest ih =>
    intro st t h
    rw [List.all_cons, Bool.and_eq_true] at h
    obtain ⟨hhead, hrest⟩ := h
    rw [List.foldl_cons, List.countP_cons]
    rcases hl : r.link with _ | url
    · have hstep : webStep embed extractP fetch ⟨st, t, true⟩ r = ⟨st, t, true⟩ := by
        simp [webStep, hl]
      have hhit : webHit extractP fetch r = false := by simp [webHit, hl]
      rw [hstep, hhit]
      obtain ⟨h1, h2⟩ := ih st t hrest
      exact ⟨h1, by rw [h2]; simp⟩
    · by_cases hu : url = ""
      · have hstep : webStep embed extractP fetch ⟨st, t, true⟩ r = ⟨st, t, true⟩ := by
          simp [webStep, hl, hu]
        have hhit : webHit extractP fetch r = false := by simp [webHit, hl, hu]
        rw [hstep, hhit]
        obtain ⟨h1, h2⟩ := ih st t hrest
        exact ⟨h1, by rw [h2]; simp⟩
      · rcases hf : fetch url with e | page
        · exfalso
          simp [webFetchSafe, hl, hu, hf, fetchOk] at hhead
        · by_cases he : extractP page = []
          · have hstep : webStep embed extractP fetch ⟨st, t, true⟩ r = ⟨st, t, true⟩ := by
              simp [webStep, hl, hu, hf, he]
            have hhit : webHit extractP fetch r = false := by
              simp [webHit, hl, hu, hf, List.isEmpty_iff, he]
            rw [hstep, hhit]
            obtain ⟨h1, h2⟩ := ih st t hrest
            exact ⟨h1, by rw [h2]; simp⟩
          · have hok2 : (webStep embed extractP fetch ⟨st, t, true⟩ r).ok = true := by
              simp [webStep, hl, hu, hf, he]
            have htl : (webStep embed extractP fetch ⟨st, t, true⟩ r).total = t + 1 := by
              simp [webStep, hl, hu, hf, he]
            have hhit : webHit extractP fetch r = true := by
              simp [webHit, hl, hu, hf, List.isEmpty_iff, he]
            rw [hhit]
            rcases hacc : webStep embed extractP fetch ⟨st, t, true⟩ r with ⟨st2, t2, ok2⟩
            rw [hacc] at hok2 htl
            simp only at hok2 htl
            subst hok2
            subst htl
            obtain ⟨h1, h2⟩ := ih st2 (t + 1) hrest
            refine ⟨h1, ?_⟩
            rw [h2]
            simp
            omega

/-- Claim C3 (amended): in `fetch_and_index_web`, a result with a missing
link or with empty extracted paragraph text is logged and skipped and never
aborts the pass — whenever every attempted fetch succeeds, the call
completes and returns the count of successfully upserted pages.  (A fetch
that raises, by contrast, aborts the whole pass: see the counterexample.) -/
theorem C3_skip_semantics {E : Type} (embed : List Char → E)
    (extractP : List Char → List Char) (fetch : String → Except Unit (List Char))
    (results : List WebResult) (k : Nat) (st0 : PipelineState E)
    (h : (results.take k).all (webFetchSafe fetch) = true) :
    (fetchAndIndexWeb embed extractP fetch results k st0).ok = true
  ∧ (fetchAndIndexWeb embed extractP fetch results k st0).ret
      = some ((results.take k).countP (webHit extractP fetch))
  ∧ (fetchAndIndexWeb embed extractP fetch results k st0).total
      = (results.take k).countP (webHit extractP fetch) := by
  obtain ⟨hok, htot⟩ := web_fold_count embed extractP fetch (results.take k) st0 0 h
  simp only [fetchAndIndexWeb]
  rw [hok, htot]
  exact ⟨rfl, by simp, by simp⟩

/-- Claim C3 counterexample: with three organic results whose links are all
retrievable but where fetching the second URL raises, the pass does not
complete: `requests.get(url, timeout=10)` has no surrounding try/except, the
exception propagates, the third result is never processed and no count is
returned — in particular the call does not return 2. -/
theorem C3_counterexample :
    (fetchAndIndexWeb cexEmbed id cexFetchOneFails cexResults 3
        (emptyPipelineState Nat)).ok = false
  ∧ (fetchAndIndexWeb cexEmbed id cexFetchOneFails cexResults 3
        (emptyPipelineState Nat)).ret = none
  ∧ (fetchAndIndexWeb cexEmbed id cexFetchOneFails cexResults 3
        (emptyPipelineState Nat)).ret ≠ some 2 :=
  ⟨by decide, by decide, by decide⟩

/-- Witness for C3 (amended): three results of which exactly one yields
empty extracted text — the pass completes and returns the count 2. -/
theorem C3_witness :
    (cexResults.take 3).all (webFetchSafe cexFetchOneEmpty) = true
  ∧ ((fetchAndIndexWeb cexEmbed id cexFetchOneEmpty cexResults 3
        (emptyPipelineState Nat)).ok = true
     ∧ (fetchAndIndexWeb cexEmbed id cexFetchOneEmpty cexResults 3
          (emptyPipelineState Nat)).ret
         = some ((cexResults.take 3).countP (webHit id cexFetchOneEmpty))
     ∧ (fetchAndIndexWeb cexEmbed id cexFetchOneEmpty cexResults 3
          (emptyPipelineState Nat)).total
         = (cexResults.take 3).countP (webHit id cexFetchOneEmpty))
  ∧ (cexResults.take 3).countP (webHit id cexFetchOneEmpty) = 2 :=
  ⟨by decide,
   C3_skip_semantics cexEmbed id cexFetchOneEmpty cexResults 3
     (emptyPipelineState Nat) (by decide),
   by decide⟩

/-- The match-resolution fold of `get_relevant_docs`, written as a filter of
the ledger-resolvable matches followed by the lookup map. -/
theorem resolveDocs_aux {E : Type} (st : PipelineState E) :
    ∀ (ms : List String) (docs : List (List Char)),
      ms.foldl
        (fun docs mid =>
          let t := (dictGet st.chunk_texts mid).getD []
          if t = [] then docs else docs ++ [t]) docs
      = docs
        ++ (ms.filter fun mid => !((dictGet st.chunk_texts mid).getD []).isEmpty).map
             (fun mid => (dictGet st.chunk_texts mid).getD []) := by
  intro ms
  induction ms with
  | nil => intro docs; simp
  | cons m rest ih =>
    intro docs
    rw [List.foldl_cons, List.filter_cons]
    by_cases h : (dictGet st.chunk_texts m).getD [] = []
    · have hb : (!((dictGet st.chunk_texts m).getD []).isEmpty) = false := by
        rw [List.isEmpty_iff.mpr h]; rfl
      rw [hb]
      simp only [if_pos h, Bool.false_eq_true, if_false]
      exact ih docs
    · have hb : (!((dictGet st.chunk_texts m).getD []).isEmpty) = true := by
        simp [List.isEmpty_iff, h]
      rw [hb]
      simp only [if_neg h, if_true]
      rw [ih (docs ++ [(dictGet st.chunk_texts m).getD []]), List.map_cons,
        List.append_assoc, List.singleton_append]

/-- Claim C4 (amended): `get_relevant_docs` resolves matches against the
`chunk_texts` ledger only — there is no metadata fallback.  The returned
texts are exactly the ledger texts of the matches whose id has a nonempty
ledger entry, in the Vector Index's descending-similarity order, so a query
with n matches returns at most n texts; matches absent from the ledger
(e.g. web-page records, which are never entered into it) are silently
dropped. -/
theorem C4_ledger_only {E : Type} (st : PipelineState E) (ms : List String) :
    resolveDocs st ms
      = (ms.filter fun mid => !((dictGet st.chunk_texts mid).getD []).isEmpty).map
          (fun mid => (dictGet st.chunk_texts mid).getD [])
  ∧ (resolveDocs st ms).length ≤ ms.length := by
  have h := resolveDocs_aux st ms []
  rw [List.nil_append] at h
  refine ⟨h, ?_⟩
  rw [resolveDocs, h, List.length_map]
  exact List.length_filter_le _ _

/-- Claim C4 counterexample: a query whose Vector Index matches are the
drive chunk `F1_chunk_0` and the web record `http://x` (two matches, mixed
origins) returns only one text — the web record's id is absent from the
ledger and is dropped, with no `"{source}: {name}"` fallback (the
spec-modelled resolution would have returned two texts). -/
theorem C4_counterexample :
    (getRelevantDocs cexEmbed cexMixedKnn "q".toList 5 cexMixedState).length = 1
  ∧ (cexMixedKnn cexMixedState.vindex (cexEmbed "q".toList) 5).length = 2
  ∧ (getRelevantDocs cexEmbed cexMixedKnn "q".toList 5 cexMixedState).length
      ≠ (cexMixedKnn cexMixedState.vindex (cexEmbed "q".toList) 5).length
  ∧ getRelevantDocs cexEmbed cexMixedKnn "q".toList 5 cexMixedState
      ≠ specResolveDocs cexMixedState
          [("F1_chunk_0", ⟨"Strategy.pdf", some 0, "drive"⟩),
           ("http://x", ⟨"Some Page", none, "http://x"⟩)] :=
  ⟨by decide, by decide, by decide, by decide⟩

/-- Claim C6: for every query, when retrieval yields an empty result set,
`chat_with_context` returns the fixed no-information response and performs
zero Language Model calls. -/
theorem C6_empty_no_lm {E : Type} (embed : List Char → E)
    (knn : List (VRec E) → E → Nat → List String)
    (lm : List Char → List Char → List Char)
    (extractP : List Char → List Char) (fetchPage : String → Except Unit (List Char))
    (searchResults : List WebResult) (q : List Char) (iw : Bool) (wp : List Char)
    (st0 : PipelineState E)
    (hok : (chatWebPhase embed extractP fetchPage searchResults iw wp st0).ok = true)
    (hempty : getRelevantDocs embed knn q 5
        (chatWebPhase embed extractP fetchPage searchResults iw wp st0).state = []) :
    (chatWithContext embed knn lm extractP fetchPage searchResults q iw wp st0).ret
      = some noInfoMsg
  ∧ (chatWithContext embed knn lm extractP fetchPage searchResults q iw wp st0).lm_calls
      = 0 := by
  simp only [chatWithContext, hok, hempty]
  exact ⟨rfl, rfl⟩

/-- Witness for C6: a session with an empty Vector Index result set — the
answer is the fixed no-information response and the Language Model is not
invoked. -/
theorem C6_witness :
    ((chatWebPhase cexEmbed id cexFetchOneFails [] false [] (emptyPipelineState Nat)).ok = true
     ∧ getRelevantDocs cexEmbed cexEmptyKnn "q".toList 5
         (chatWebPhase cexEmbed id cexFetchOneFails [] false []
           (emptyPipelineState Nat)).state = [])
  ∧ ((chatWithContext cexEmbed cexEmptyKnn cexLm id cexFetchOneFails [] "q".toList false []
        (emptyPipelineState Nat)).ret = some noInfoMsg
     ∧ (chatWithContext cexEmbed cexEmptyKnn cexLm id cexFetchOneFails [] "q".toList false []
          (emptyPipelineState Nat)).lm_calls = 0) :=
  ⟨⟨by decide, by decide⟩,
   C6_empty_no_lm cexEmbed cexEmptyKnn cexLm id cexFetchOneFails [] "q".toList false []
     (emptyPipelineState Nat) (by decide) (by decide)⟩

/-- The context block of `chat_with_context`, written with the trailing
`[Web]` block split off. -/
theorem buildContext_eq (docs : List (List Char)) (iw : Bool) (wp : List Char) :
    buildContext docs iw wp
      = List.intercalate ctxSep (docs.map (fun d => "[Drive] ".toList ++ d))
        ++ (if iw ∧ wp ≠ [] then ctxSep ++ "[Web] ".toList ++ wp else []) := by
  simp only [buildContext]
  by_cases h : iw ∧ wp ≠ []
  · rw [if_pos h, if_pos h]
    simp [List.append_assoc]
  · rw [if_neg h, if_neg h, List.append_nil]

/-- Claim C8 (amended): the retrieved texts are joined with the separator
`"\n\n---\n\n"` into a single context block, but every retrieved text is
prefixed `"[Drive] "` unconditionally — there is no per-document origin
tagging — and the only `"[Web] "`-tagged block is the literal web search
prompt, appended when web context was requested; web-origin matches
contribute no block at all, since retrieval drops them (claim C4). -/
theorem C8_context_assembly {E : Type} (embed : List Char → E)
    (knn : List (VRec E) → E → Nat → List String)
    (lm : List Char → List Char → List Char)
    (extractP : List Char → List Char) (fetchPage : String → Except Unit (List Char))
    (searchResults : List WebResult) (q : List Char) (iw : Bool) (wp : List Char)
    (st0 : PipelineState E)
    (hok : (chatWebPhase embed extractP fetchPage searchResults iw wp st0).ok = true)
    (hne : getRelevantDocs embed knn q 5
        (chatWebPhase embed extractP fetchPage searchResults iw wp st0).state ≠ []) :
    (chatWithContext embed knn lm extractP fetchPage searchResults q iw wp st0).lm_user_msg
      = some ("Question: ".toList ++ q ++ "\n\nContext:\n".toList
          ++ List.intercalate ctxSep
               ((getRelevantDocs embed knn q 5
                   (chatWebPhase embed extractP fetchPage searchResults iw wp st0).state).map
                  (fun d => "[Drive] ".toList ++ d))
          ++ (if iw ∧ wp ≠ [] then ctxSep ++ "[Web] ".toList ++ wp else [])) := by
  simp only [chatWithContext, hok, if_neg hne]
  rw [buildContext_eq]
  simp [List.append_assoc]

/-- Witness for C8 (amended): a concrete mixed-origin session — the user
message sent to the Language Model is exactly the `[Drive]`-prefixed
retrieved text joined with the separator plus the `[Web]`-prefixed literal
search prompt. -/
theorem C8_witness :
    ((chatWebPhase cexEmbed id cexFetchOneFails [] true "wp".toList cexMixedState).ok = true
     ∧ getRelevantDocs cexEmbed cexMixedKnn "q".toList 5
         (chatWebPhase cexEmbed id cexFetchOneFails [] true "wp".toList cexMixedState).state
         ≠ [])
  ∧ (chatWithContext cexEmbed cexMixedKnn cexLm id cexFetchOneFails [] "q".toList true
       "wp".toList cexMixedState).lm_user_msg
      = some ("Question: ".toList ++ "q".toList ++ "\n\nContext:\n".toList
          ++ List.intercalate ctxSep
               ((getRelevantDocs cexEmbed cexMixedKnn "q".toList 5
                   (chatWebPhase cexEmbed id cexFetchOneFails [] true "wp".toList
                     cexMixedState).state).map
                  (fun d => "[Drive] ".toList ++ d))
          ++ (if (true : Bool) ∧ "wp".toList ≠ ([] : List Char) then
                ctxSep ++ "[Web] ".toList ++ "wp".toList
              else [])) :=
  ⟨⟨by decide, by decide⟩,
   C8_context_assembly cexEmbed cexMixedKnn cexLm id cexFetchOneFails [] "q".toList true
     "wp".toList cexMixedState (by decide) (by decide)⟩

/-- Claim C8 counterexample: in a session whose Vector Index matches mix
both origins (the drive chunk `F1_chunk_0` and the web record `http://x`),
the user message actually sent to the Language Model carries the web search
prompt under the `[Web]` tag — not the web document resolved text under its
origin tag, as the claim describes: the spec-modelled mixed-origin context
differs from the context the code builds. -/
theorem C8_counterexample :
    (chatWithContext cexEmbed cexMixedKnn cexLm id cexFetchOneFails [] "q".toList true
       "wp".toList cexMixedState).lm_user_msg
      = some "Question: q\n\nContext:\n[Drive] alpha\n\n---\n\n[Web] wp".toList
  ∧ ("Question: ".toList ++ "q".toList ++ "\n\nContext:\n".toList
      ++ specMixedContext [(true, "alpha".toList), (false, "http://x: Some Page".toList)])
      = "Question: q\n\nContext:\n[Drive] alpha\n\n---\n\n[Web] http://x: Some Page".toList
  ∧ (chatWithContext cexEmbed cexMixedKnn cexLm id cexFetchOneFails [] "q".toList true
       "wp".toList cexMixedState).lm_user_msg
      ≠ some ("Question: ".toList ++ "q".toList ++ "\n\nContext:\n".toList
          ++ specMixedContext [(true, "alpha".toList), (false, "http://x: Some Page".toList)]) :=
  ⟨by decide, by decide, by decide⟩

/-- One web-loop step never touches the session ledger: it writes only to
the Vector Index. -/
theorem webStep_ledger {E : Type} (embed : List Char → E)
    (extractP : List Char → List Char) (fetch : String → Except Unit (List Char))
    (acc : WebAcc E) (r : WebResult) :
    (webStep embed extractP fetch acc r).st.indexed_chunks = acc.st.indexed_chunks
  ∧ (webStep embed extractP fetch acc r).st.chunk_texts = acc.st.chunk_texts := by
  obtain ⟨title, link⟩ := r
  by_cases hok : acc.ok = false
  · simp only [webStep, if_pos hok]
    exact ⟨trivial, trivial⟩
  · cases link with
    | none =>
      simp only [webStep, if_neg hok]
      exact ⟨trivial, trivial⟩
    | some url =>
      simp only [webStep, if_neg hok]
      by_cases hu : url = ""
      · rw [if_pos hu]; exact ⟨rfl, rfl⟩
      · rw [if_neg hu]
        rcases hf : fetch url with e | page
        · simp only [hf]
          exact ⟨trivial, trivial⟩
        · simp only [hf]
          by_cases he : extractP page = []
          · rw [if_pos he]; exact ⟨rfl, rfl⟩
          · rw [if_neg he]; exact ⟨rfl, rfl⟩

/-- A whole `fetch_and_index_web` call never touches the session ledger:
URL-keyed web-page records are entered into the Vector Index only, never
into `indexed_chunks` or `chunk_texts`. -/
theorem fetchAndIndexWeb_ledger {E : Type} (embed : List Char → E)
    (extractP : List Char → List Char) (fetch : String → Except Unit (List Char))
    (results : List WebResult) (k : Nat) (st : PipelineState E) :
    (fetchAndIndexWeb embed extractP fetch results k st).state.indexed_chunks
      = st.indexed_chunks
  ∧ (fetchAndIndexWeb embed extractP fetch results k st).state.chunk_texts
      = st.chunk_texts := by
  exact foldl_inv
    (fun a : WebAcc E =>
      a.st.indexed_chunks = st.indexed_chunks ∧ a.st.chunk_texts = st.chunk_texts)
    (webStep embed extractP fetch)
    (fun a b h => by
      obtain ⟨h1, h2⟩ := h
      obtain ⟨g1, g2⟩ := webStep_ledger embed extractP fetch a b
      exact ⟨g1.trans h1, g2.trans h2⟩)
    (results.take k) ⟨st, 0, true⟩ ⟨rfl, rfl⟩

/-- The per-chunk step preserves the key-set equality of the ledger and
only ever appends to both ledger components. -/
theorem driveChunkStep_keys {E : Type} (embed : List Char → E) (f : DriveFile)
    (acc : DriveAcc E) (p : Nat × List Char)
    (h : acc.st.indexed_chunks = acc.st.chunk_texts.map Prod.fst) :
    ((driveChunkStep embed f acc p).st.indexed_chunks
       = (driveChunkStep embed f acc p).st.chunk_texts.map Prod.fst)
  ∧ ∃ e1 e2, (driveChunkStep embed f acc p).st.indexed_chunks
        = acc.st.indexed_chunks ++ e1
      ∧ (driveChunkStep embed f acc p).st.chunk_texts = acc.st.chunk_texts ++ e2 := by
  rcases driveChunkStep_cases embed f acc p with ⟨_, heq⟩ | ⟨hout, heq⟩
  · rw [heq]
    exact ⟨h, [], [], by simp, by simp⟩
  · rw [heq]
    have hk : mkChunkId f.id p.1 ∉ acc.st.chunk_texts.map Prod.fst := h ▸ hout
    refine ⟨?_, [mkChunkId f.id p.1], [(mkChunkId f.id p.1, p.2)],
      rfl, dictAssign_append _ _ _ hk⟩
    rw [dictAssign_append _ _ _ hk, List.map_append, h]
    rfl

/-- A full `index_drive_docs` call preserves the key-set equality of the
ledger and only ever appends to both ledger components. -/
theorem indexDriveDocs_grows {E : Type} (embed : List Char → E)
    (extract : DriveFile → List Char) (files : List DriveFile) (cs : Nat)
    (st0 : PipelineState E)
    (hinv : st0.indexed_chunks = st0.chunk_texts.map Prod.fst) :
    ((indexDriveDocs embed extract files cs st0).state.indexed_chunks
       = (indexDriveDocs embed extract files cs st0).state.chunk_texts.map Prod.fst)
  ∧ ∃ e1 e2, (indexDriveDocs embed extract files cs st0).state.indexed_chunks
        = st0.indexed_chunks ++ e1
      ∧ (indexDriveDocs embed extract files cs st0).state.chunk_texts
        = st0.chunk_texts ++ e2 := by
  have hchunk : ∀ (fl : DriveFile) (a : DriveAcc E) (b : Nat × List Char),
      ((a.st.indexed_chunks = a.st.chunk_texts.map Prod.fst)
       ∧ ∃ e1 e2, a.st.indexed_chunks = st0.indexed_chunks ++ e1
           ∧ a.st.chunk_texts = st0.chunk_texts ++ e2) →
      ((driveChunkStep embed fl a b).st.indexed_chunks
         = (driveChunkStep embed fl a b).st.chunk_texts.map Prod.fst)
      ∧ ∃ e1 e2, (driveChunkStep embed fl a b).st.indexed_chunks
            = st0.indexed_chunks ++ e1
          ∧ (driveChunkStep embed fl a b).st.chunk_texts = st0.chunk_texts ++ e2 := by
    intro fl a b h
    obtain ⟨h1, e1, e2, h2, h3⟩ := h
    obtain ⟨g1, g3, g4, g5, g6⟩ := driveChunkStep_keys embed fl a b h1
    exact ⟨g1, e1 ++ g3, e2 ++ g4,
      by rw [g5, h2, List.append_assoc], by rw [g6, h3, List.append_assoc]⟩
  have hfile : ∀ (a : DriveAcc E) (fl : DriveFile),
      ((a.st.indexed_chunks = a.st.chunk_texts.map Prod.fst)
       ∧ ∃ e1 e2, a.st.indexed_chunks = st0.indexed_chunks ++ e1
           ∧ a.st.chunk_texts = st0.chunk_texts ++ e2) →
      ((driveFileStep embed extract cs a fl).st.indexed_chunks
         = (driveFileStep embed extract cs a fl).st.chunk_texts.map Prod.fst)
      ∧ ∃ e1 e2, (driveFileStep embed extract cs a fl).st.indexed_chunks
            = st0.indexed_chunks ++ e1
          ∧ (driveFileStep embed extract cs a fl).st.chunk_texts
            = st0.chunk_texts ++ e2 := by
    intro a fl h
    simp only [driveFileStep]
    split
    · exact h
    · exact foldl_inv _ (driveChunkStep embed fl) (hchunk fl) _ a h
  exact foldl_inv _ (driveFileStep embed extract cs) hfile files ⟨st0, 0, 0, 0⟩
    ⟨hinv, [], [], by simp, by simp⟩

/-- One indexing action preserves the ledger key-set equality and only ever
appends to both ledger components. -/
theorem runOp_ledger {E : Type} (embed : List Char → E) (op : PipeOp)
    (st : PipelineState E)
    (hinv : st.indexed_chunks = st.chunk_texts.map Prod.fst) :
    ((runOp embed op st).indexed_chunks = (runOp embed op st).chunk_texts.map Prod.fst)
  ∧ ∃ e1 e2, (runOp embed op st).indexed_chunks = st.indexed_chunks ++ e1
      ∧ (runOp embed op st).chunk_texts = st.chunk_texts ++ e2 := by
  cases op with
  | drive ex fs cs => exact indexDriveDocs_grows embed ex fs cs st hinv
  | web exP fp rs k =>
    obtain ⟨h1, h2⟩ := fetchAndIndexWeb_ledger embed exP fp rs k st
    exact ⟨by rw [show (runOp embed (PipeOp.web exP fp rs k) st) =
        (fetchAndIndexWeb embed exP fp rs k st).state from rfl, h1, h2]; exact hinv,
      [], [], by simp [runOp, h1], by simp [runOp, h2]⟩

/-- Claim C10: after any sequence of `index_drive_docs` and
`fetch_and_index_web` calls starting from the empty session state, the set
of indexed chunk ids lists exactly the keys of the `chunk_id → text`
mapping (each id is added to both together); both ledger components only
ever grow (each step appends, never removes or overwrites); and a
`fetch_and_index_web` call never enters its URL-keyed web-page records into
either ledger component. -/
theorem C10_ledger_invariant {E : Type} (embed : List Char → E) (ops : List PipeOp) :
    ((runOps embed ops (emptyPipelineState E)).indexed_chunks
       = (runOps embed ops (emptyPipelineState E)).chunk_texts.map Prod.fst)
  ∧ (∀ i : Nat, ∃ e1 e2,
       (runOps embed (ops.take (i+1)) (emptyPipelineState E)).indexed_chunks
         = (runOps embed (ops.take i) (emptyPipelineState E)).indexed_chunks ++ e1
     ∧ (runOps embed (ops.take (i+1)) (emptyPipelineState E)).chunk_texts
         = (runOps embed (ops.take i) (emptyPipelineState E)).chunk_texts ++ e2)
  ∧ (∀ (extractP : List Char → List Char)
       (fetchPage : String → Except Unit (List Char))
       (results : List WebResult) (k : Nat) (st : PipelineState E),
       (fetchAndIndexWeb embed extractP fetchPage results k st).state.indexed_chunks
         = st.indexed_chunks
     ∧ (fetchAndIndexWeb embed extractP fetchPage results k st).state.chunk_texts
         = st.chunk_texts) := by
  have hinv : ∀ ops2 : List PipeOp,
      (runOps embed ops2 (emptyPipelineState E)).indexed_chunks
        = (runOps embed ops2 (emptyPipelineState E)).chunk_texts.map Prod.fst :=
    fun ops2 => foldl_inv
      (fun s : PipelineState E => s.indexed_chunks = s.chunk_texts.map Prod.fst)
      (fun s o => runOp embed o s)
      (fun s o h => (runOp_ledger embed o s h).1) ops2 (emptyPipelineState E) rfl
  refine ⟨hinv ops, ?_, fun exP fp rs k st => fetchAndIndexWeb_ledger embed exP fp rs k st⟩
  intro i
  by_cases hi : i < ops.length
  · have htake : ops.take (i+1) = ops.take i ++ [ops.get ⟨i, hi⟩] := by
      rw [List.take_succ, List.getElem?_eq_getElem hi]
      rfl
    rw [htake]
    show ∃ e1 e2,
      ((ops.take i ++ [ops.get ⟨i, hi⟩]).foldl (fun s o => runOp embed o s)
        (emptyPipelineState E)).indexed_chunks
        = (runOps embed (ops.take i) (emptyPipelineState E)).indexed_chunks ++ e1
      ∧ ((ops.take i ++ [ops.get ⟨i, hi⟩]).foldl (fun s o => runOp embed o s)
          (emptyPipelineState E)).chunk_texts
        = (runOps embed (ops.take i) (emptyPipelineState E)).chunk_texts ++ e2
    rw [List.foldl_append]
    exact (runOp_ledger embed (ops.get ⟨i, hi⟩)
      (runOps embed (ops.take i) (emptyPipelineState E)) (hinv (ops.take i))).2
  · have htake : ops.take (i+1) = ops.take i := by
      rw [List.take_of_length_le (by omega), List.take_of_length_le (by omega)]
    rw [htake]
    exact ⟨[], [], by simp, by simp⟩
